import Mathlib

/-!
Verification of the transcript-pipeline repository (download.py, transcribe.py,
search.py) against its specification.

Strings are embedded as `List Char` (`Str`) with structurally recursive
operations mirroring the Python string primitives used by the source
(`str.split`, `str.lower`, `str.startswith`, `os.path.splitext`, ...), so that
every definition is executable and concrete instances can be settled by
`decide`/`rfl`.  External collaborators (the similarity scorer, the
speech-to-text engine, the download subprocess, the timestamp formatter) are
parameters, exactly as the specification treats them.
-/

/-- Characters of a Python string, in order. -/
abbrev Str := List Char

/-- Embed a Lean string literal into the model. -/
def str (s : String) : Str := s.data

/-- Split at every character satisfying `p`, keeping empty segments:
the semantics of Python `s.split(sep)` for a one-character separator
(specialised by `splitOnChar`), e.g. `"a__b".split("_") == ["a","","b"]`. -/
def splitOnPred (p : Char → Bool) : Str → List Str
  | [] => [[]]
  | c :: cs =>
    let rest := splitOnPred p cs
    if p c then [] :: rest
    else
      match rest with
      | h :: t => (c :: h) :: t
      | [] => [[c]]

/-- Python `s.split(sep)` for a single-character separator `sep`. -/
def splitOnChar (sep : Char) (s : Str) : List Str :=
  splitOnPred (fun c => c == sep) s

/-- Python `str.lower` on the character ranges occurring in this corpus:
ASCII letters and the Latin-1 letters U+00C0..U+00DE (excluding the
multiplication sign U+00D7), which covers the Finnish ä/ö/å. -/
def py_lower (c : Char) : Char :=
  if 'A' ≤ c ∧ c ≤ 'Z' then Char.ofNat (c.toNat + 32)
  else if 0xC0 ≤ c.toNat ∧ c.toNat ≤ 0xDE ∧ c.toNat ≠ 0xD7 then Char.ofNat (c.toNat + 32)
  else c

/-- Python `s.lower()`. -/
def lower (s : Str) : Str := s.map py_lower

/-- Python `os.path.splitext` for plain file names (no directory separator):
split at the last dot, unless every character before it is itself a dot,
e.g. `splitext ".json" = (".json", "")` and `splitext "a.b.json" = ("a.b", ".json")`. -/
def splitext (p : Str) : Str × Str :=
  match ((p.enum.filter (fun ic => ic.2 == '.')).map Prod.fst).getLast? with
  | none => (p, [])
  | some i =>
    if (p.take i).any (fun c => c != '.') then (p.take i, p.drop i)
    else (p, [])

/-! ## search.py -/

/-- Embeds `search.py::extract_video_info`: drop the extension, split the base
name on `_`; fewer than 4 raw segments is invalid; otherwise drop empty
segments, require at least 3 of them, take segment index 2 as the id and the
segments from index 3 on joined by `_` as the video name. -/
def extract_video_info (filename : Str) : Option Str × Option Str :=
  let basename := (splitext filename).1
  let parts := splitOnChar '_' basename
  if parts.length < 4 then (none, none)
  else
    match parts.filter (fun p => p ≠ []) with
    | _ :: _ :: c :: rest => (some c, some (List.intercalate (str "_") rest))
    | _ => (none, none)

/-- Parsing rule exactly as the specification words it (for comparison with
`extract_video_info`): split the base name on `_`, discard empty segments,
fewer than 3 remaining segments means unparseable, otherwise the third
remaining segment is the item id and the rest joined by `_` form the title. -/
def spec_extract_video_info (filename : Str) : Option Str × Option Str :=
  let basename := (splitext filename).1
  match (splitOnChar '_' basename).filter (fun p => p ≠ []) with
  | _ :: _ :: c :: rest => (some c, some (List.intercalate (str "_") rest))
  | _ => (none, none)

/-- One entry of a transcript record's `words` array. -/
structure WordEntry where
  word : Str
  start : Rat
  «end» : Rat
deriving DecidableEq

/-- Parsed content of a transcript JSON file. -/
structure Transcription where
  words : List WordEntry
deriving DecidableEq

/-- A transcript corpus file: its name and its parsed content
(`none` models invalid JSON, which `process_file` skips). -/
structure TranscriptFile where
  name : Str
  content : Option Transcription
deriving DecidableEq

/-- One match reported by the search (`match_info` in `process_file`). -/
structure MatchResult where
  video_id : Str
  video_name : Str
  matched_word : Str
  start_time : Rat
  end_time : Rat
  similarity : Rat
deriving DecidableEq

/-- The word loop of `process_file`: score every word of the transcript
against the query with the similarity collaborator (`fuzz.ratio` on the
lowercased strings) and keep entries whose score reaches the threshold. -/
def scan_words (sim : Str → Str → Rat) (search_word : Str) (threshold : Rat)
    (youtube_id video_name : Str) : List WordEntry → List MatchResult
  | [] => []
  | w :: ws =>
    let similarity := sim (lower search_word) (lower w.word)
    if threshold ≤ similarity then
      ⟨youtube_id, video_name, w.word, w.start, w.«end», similarity⟩ ::
        scan_words sim search_word threshold youtube_id video_name ws
    else scan_words sim search_word threshold youtube_id video_name ws

/-- Embeds `search.py::process_file`: parse the file name; skip the file when
the name is unparseable or parses to an empty id or name, or when the JSON
content is invalid; otherwise scan the words. -/
def process_file (sim : Str → Str → Rat) (search_word : Str) (threshold : Rat)
    (file : TranscriptFile) : List MatchResult :=
  match extract_video_info file.name with
  | (some youtube_id, some video_name) =>
    if youtube_id = [] ∨ video_name = [] then []
    else
      match file.content with
      | none => []
      | some data => scan_words sim search_word threshold youtube_id video_name data.words
  | _ => []

/-- Matches found by one worker of the process pool: the worker owns a list of
files and returns the concatenation of the per-file match lists. -/
def worker_matches (sim : Str → Str → Rat) (search_word : Str) (threshold : Rat)
    (files : List TranscriptFile) : List MatchResult :=
  files.flatMap (process_file sim search_word threshold)

/-- Embeds `search.py::search_word_in_transcriptions`: the corpus is
partitioned into per-worker file lists and the workers' match lists are
concatenated in completion order (`all_matches.extend(matches)`). -/
def search_word_in_transcriptions (sim : Str → Str → Rat) (search_word : Str)
    (threshold : Rat) (partitions : List (List TranscriptFile)) : List MatchResult :=
  (partitions.map (worker_matches sim search_word threshold)).flatten

/-! ## Claim C1 -/

/-- C1 (counterexample): the consumer-side parser does not follow the claimed
rule.  A name with exactly 3 non-empty segments is claimed parseable (third
segment as id) but the code rejects it before filtering (`len(parts) < 4`),
and the claimed scenario `1000__abc123_Title.json` actually parses to
id `"Title"` with an empty title, not to id `"abc123"` and title `"Title"`. -/
theorem extract_video_info_claim_cex :
    extract_video_info (str "a_b_c.json") = (none, none)
    ∧ extract_video_info (str "1000__abc123_Title.json") = (some (str "Title"), some [])
    ∧ (some (str "Title"), some ([] : Str)) ≠ (some (str "abc123"), some (str "Title")) := by
  refine ⟨by decide, by decide, by decide⟩

/-- C1 (amended): the parser follows the claimed split/filter rule only after
an additional guard requiring at least 4 raw `_`-segments before empty
segments are discarded; consequently the double-underscore scenario file
`1000__abc123_Title.json` parses to id `"Title"` and an empty title, and
`process_file` skips it (empty parsed name), returning no matches for it. -/
theorem extract_video_info_matches_spec_rule (filename : Str)
    (sim : Str → Str → Rat) (search_word : Str) (threshold : Rat)
    (words : List WordEntry) :
    extract_video_info filename =
      (if (splitOnChar '_' (splitext filename).1).length < 4 then (none, none)
       else spec_extract_video_info filename)
    ∧ extract_video_info (str "1000__abc123_Title.json") = (some (str "Title"), some [])
    ∧ process_file sim search_word threshold
        ⟨str "1000__abc123_Title.json", some ⟨words⟩⟩ = [] := by
  refine ⟨?_, by decide, ?_⟩
  · unfold extract_video_info spec_extract_video_info
    by_cases h : (splitOnChar '_' (splitext filename).1).length < 4 <;> simp [h]
  · show process_file _ _ _ _ = []
    have h : extract_video_info (str "1000__abc123_Title.json")
        = (some (str "Title"), some []) := by decide
    simp [process_file, h]

/-! ## Claim C2 -/

/-- Concatenating each partition's matches equals scanning the flattened
file list: the equational content of the worker fan-out. -/
theorem search_eq_flatMap (sim : Str → Str → Rat) (sw : Str) (t : Rat)
    (partitions : List (List TranscriptFile)) :
    search_word_in_transcriptions sim sw t partitions
      = partitions.flatten.flatMap (process_file sim sw t) := by
  induction partitions with
  | nil => rfl
  | cons w rest ih =>
    simp only [search_word_in_transcriptions, worker_matches, List.map_cons,
      List.flatten_cons, List.flatMap_append] at ih ⊢
    rw [ih]

/-- C2: partitioning the corpus across workers never loses or duplicates a
match.  For any partition whose flattened file list is a permutation of the
corpus (covering any worker count and any completion order of the workers),
the multiset of results equals that of the single-worker run. -/
theorem search_partition_invariance (sim : Str → Str → Rat) (sw : Str) (t : Rat)
    (files : List TranscriptFile) (ws : List (List TranscriptFile))
    (h : ws.flatten.Perm files) :
    (↑(search_word_in_transcriptions sim sw t ws) : Multiset MatchResult)
      = ↑(search_word_in_transcriptions sim sw t [files]) := by
  rw [search_eq_flatMap, search_eq_flatMap]
  refine Multiset.coe_eq_coe.mpr ?_
  have h2 : ([files] : List (List TranscriptFile)).flatten = files := by simp
  rw [h2]
  exact List.Perm.flatMap_right _ h

/-- Similarity collaborator used by concrete instances: 100 on equal strings,
0 otherwise (the behaviour of `fuzz.ratio` at its extremes). -/
def sim_eq : Str → Str → Rat := fun a b => if a = b then 100 else 0

/-- Transcript file with one word, used by concrete search instances. -/
def kfile1 : TranscriptFile :=
  ⟨str "1000_20200101_abc_One.json", some ⟨[⟨str "kissa", 1, 2⟩]⟩⟩

/-- Second transcript file used by concrete search instances. -/
def kfile2 : TranscriptFile :=
  ⟨str "1001_20200102_def_Two.json", some ⟨[⟨str "koira", 3, 4⟩]⟩⟩

/-- C2 (witness): two files split across two workers completing in swapped
order give the same multiset of matches as the single-worker run. -/
theorem search_partition_invariance_witness :
    (↑(search_word_in_transcriptions sim_eq (str "kissa") 80 [[kfile2], [kfile1]])
        : Multiset MatchResult)
      = ↑(search_word_in_transcriptions sim_eq (str "kissa") 80 [[kfile1, kfile2]]) :=
  search_partition_invariance sim_eq (str "kissa") 80 [kfile1, kfile2] [[kfile2], [kfile1]]
    (by simpa using List.Perm.swap kfile1 kfile2 [])

/-! ## Claim C9 -/

/-- Two word entries equal up to the letter case of the word. -/
def wordCaseEq (w w' : WordEntry) : Prop :=
  lower w.word = lower w'.word ∧ w.start = w'.start ∧ w.«end» = w'.«end»

instance (w w' : WordEntry) : Decidable (wordCaseEq w w') := by
  unfold wordCaseEq; infer_instance

/-- Two match results equal up to the letter case of the matched word. -/
def matchCaseEq (m m' : MatchResult) : Prop :=
  m.video_id = m'.video_id ∧ m.video_name = m'.video_name
    ∧ lower m.matched_word = lower m'.matched_word
    ∧ m.start_time = m'.start_time ∧ m.end_time = m'.end_time
    ∧ m.similarity = m'.similarity

/-- Word lists equal up to case produce match lists equal up to the case of
`matched_word`: the match decision only sees the lowercased word. -/
theorem scan_words_case (sim : Str → Str → Rat) (sw : Str) (t : Rat)
    (y v : Str) {l l' : List WordEntry} (h : List.Forall₂ wordCaseEq l l') :
    List.Forall₂ matchCaseEq (scan_words sim sw t y v l) (scan_words sim sw t y v l') := by
  induction h with
  | nil => exact List.Forall₂.nil
  | @cons a b l₁ l₂ h₁ h₂ ih =>
    obtain ⟨hword, hstart, hend⟩ := h₁
    simp only [scan_words]
    rw [hword]
    by_cases hc : t ≤ sim (lower sw) (lower b.word)
    · rw [if_pos hc, if_pos hc]
      exact List.Forall₂.cons ⟨rfl, rfl, hword, hstart, hend, rfl⟩ ih
    · rw [if_neg hc, if_neg hc]
      exact ih

/-- C9: the match decision is case-insensitive.  A query differing only in
letter case gives the identical result list, and transcript words differing
only in letter case give match lists identical except for the case kept in
`matched_word`. -/
theorem search_case_insensitive (sim : Str → Str → Rat) (t : Rat) (sw sw' : Str)
    (f : TranscriptFile) (name : Str) (t₁ t₂ : Transcription)
    (hq : lower sw = lower sw')
    (hw : List.Forall₂ wordCaseEq t₁.words t₂.words) :
    process_file sim sw t f = process_file sim sw' t f
    ∧ List.Forall₂ matchCaseEq
        (process_file sim sw t ⟨name, some t₁⟩)
        (process_file sim sw' t ⟨name, some t₂⟩) := by
  have hscan : ∀ y v ws, scan_words sim sw t y v ws = scan_words sim sw' t y v ws := by
    intro y v ws
    induction ws with
    | nil => rfl
    | cons a l ih => simp only [scan_words, hq, ih]
  have hfile : ∀ g : TranscriptFile, process_file sim sw t g = process_file sim sw' t g := by
    intro g
    unfold process_file
    cases extract_video_info g.name with
    | mk o₁ o₂ =>
      cases o₁ <;> cases o₂ <;> cases g.content <;> simp [hscan]
  refine ⟨hfile f, ?_⟩
  rw [← hfile ⟨name, some t₂⟩]
  unfold process_file
  cases extract_video_info name with
  | mk o₁ o₂ =>
    cases o₁ with
    | none => cases o₂ <;> exact List.Forall₂.nil
    | some y =>
      cases o₂ with
      | none => exact List.Forall₂.nil
      | some v =>
        by_cases hz : y = [] ∨ v = []
        · simp only [if_pos hz]; exact List.Forall₂.nil
        · simp only [if_neg hz]
          exact scan_words_case sim sw t y v hw

/-- C9 (witness): query `KISSA` versus `kissa`, and a transcript word `Kissa`
versus `KISSA`, at threshold 80 with the equality scorer. -/
theorem search_case_insensitive_witness :
    process_file sim_eq (str "KISSA") 80 kfile1 = process_file sim_eq (str "kissa") 80 kfile1
    ∧ List.Forall₂ matchCaseEq
        (process_file sim_eq (str "KISSA") 80
          ⟨str "1000_20200101_abc_One.json", some ⟨[⟨str "Kissa", 1, 2⟩]⟩⟩)
        (process_file sim_eq (str "kissa") 80
          ⟨str "1000_20200101_abc_One.json", some ⟨[⟨str "KISSA", 1, 2⟩]⟩⟩) :=
  search_case_insensitive sim_eq 80 (str "KISSA") (str "kissa") kfile1
    (str "1000_20200101_abc_One.json") ⟨[⟨str "Kissa", 1, 2⟩]⟩ ⟨[⟨str "KISSA", 1, 2⟩]⟩
    (by decide) (List.Forall₂.cons (by decide) List.Forall₂.nil)

/-! ## download.py -/

/-- Python string comparison `a <= b`: lexicographic by code point. -/
def pyStrLe : Str → Str → Bool
  | [], _ => true
  | _ :: _, [] => false
  | c :: cs, d :: ds => if c = d then pyStrLe cs ds else decide (c < d)

/-- One catalog entry of `videos.json`. -/
structure Video where
  id : Str
  name : Str
  publishedAt : Str
  downloaded : Bool
deriving DecidableEq

/-- Characters replaced by `-` in `sanitize_filename`. -/
def problematic_chars : Str := str "\\/:\"*?<>|"

/-- Embeds `download.py::sanitize_filename`: translate filesystem-hostile
characters to `-`, then normalize whitespace (`" ".join(sanitized.split())`,
where an argument-less `split` drops empty segments). -/
def sanitize_filename (title : Str) : Str :=
  let sanitized := title.map (fun c => if problematic_chars.contains c then '-' else c)
  List.intercalate (str " ")
    ((splitOnPred Char.isWhitespace sanitized).filter (fun p => p ≠ []))

/-- The persisted `videos.json` aggregate. -/
structure CatalogData where
  lastUpdated : Option Str
  videos : List Video
deriving DecidableEq

/-- Embeds `download.py::write_videos_json` on the in-memory data: stamp
`lastUpdated` with the current UTC time (the clock enters as the parameter
`now`) and write the full catalog. -/
def write_videos_json (now : Str) (data : CatalogData) : CatalogData :=
  { data with lastUpdated := some now }

/-- File contents observable at the interrupt points of the file write in
`write_videos_json`: `open(VIDEOS_JSON, "w")` first truncates the file, then
`json.dump` writes the new serialized contents, so an interrupt between the
two steps leaves the truncated (empty) file. -/
def write_videos_json_file_states (oldContent newContent : Str) : List Str :=
  [oldContent, [], newContent]

/-- Embeds `download.py::video_already_in_db`. -/
def video_already_in_db (videos : List Video) (video_id : Str) : Bool :=
  videos.any (fun v => v.id == video_id)

/-- One step of building the Python dict `{v["id"]: v for v in combined}`:
an existing key keeps its position but its value is overwritten by the later
item; a new key is appended. -/
def dict_upsert (acc : List Video) (v : Video) : List Video :=
  if acc.any (fun w => w.id == v.id) then
    acc.map (fun w => if w.id == v.id then v else w)
  else acc ++ [v]

/-- The id-keyed dict built from `combined` in `fetch_new_videos`, read back
in insertion order (`list(combined_dict.values())`). -/
def dedup_by_id (l : List Video) : List Video := l.foldl dict_upsert []

/-- Ascending order on the `publishedAt` sort key used by
`combined_list.sort(key=lambda x: x["publishedAt"])`. -/
def lePub (a b : Video) : Prop := pyStrLe a.publishedAt b.publishedAt = true

instance : DecidableRel lePub :=
  fun a b => instDecidableEqBool (pyStrLe a.publishedAt b.publishedAt) true

/-- Embeds the merge block of `fetch_new_videos` (combine, deduplicate by id
through a dict where the later item wins, sort ascending by `publishedAt`;
Python's sort is stable, as is insertion sort). -/
def merge_videos (existing incoming : List Video) : List Video :=
  List.insertionSort lePub (dedup_by_id (existing ++ incoming))

/-- The merge as `fetch_new_videos` guards it: the stored catalog is written
only when at least one new video was collected. -/
def fetch_new_videos_merge (videos new_videos : List Video) : List Video :=
  if new_videos.isEmpty then videos else merge_videos videos new_videos

/-- Fields of a playlist item snippet used when collecting new videos. -/
structure Snippet where
  id : Str
  name : Str
  publishedAt : Str

/-- The collection loop of `fetch_new_videos`: an item whose id is already
stored is not added to `new_videos`; a new one is recorded with
`downloaded := false`. -/
def collect_new_videos (videos : List Video) (snippets : List Snippet) : List Video :=
  snippets.filterMap (fun s =>
    if video_already_in_db videos s.id then none
    else some ⟨s.id, s.name, s.publishedAt, false⟩)

/-! ## Claim C3 -/

/-- C3 (counterexample): the catalog write is not atomic replace-on-write.
The write first truncates `videos.json`, so the empty intermediate state is
observable at an interrupt, and it is neither the old nor the new contents. -/
theorem write_videos_json_atomicity_cex :
    [] ∈ write_videos_json_file_states (str "old-catalog") (str "new-catalog")
    ∧ ([] : Str) ≠ str "old-catalog" ∧ ([] : Str) ≠ str "new-catalog" :=
  ⟨by decide, by decide, by decide⟩

/-- C3 (amended): `Save` stamps `lastUpdated` with the current UTC time and
writes the full catalog, but by truncate-then-write rather than atomic
replace-on-write: whenever the old and new serialized contents are nonempty,
an interrupt between truncation and the completed write exposes a file state
(the empty file) that is neither of them. -/
theorem write_videos_json_stamps_and_truncates (now : Str) (data : CatalogData)
    (oldContent newContent : Str) (h₁ : oldContent ≠ []) (h₂ : newContent ≠ []) :
    (write_videos_json now data).lastUpdated = some now
    ∧ (write_videos_json now data).videos = data.videos
    ∧ (write_videos_json_file_states oldContent newContent).get? 1 = some []
    ∧ ([] : Str) ≠ oldContent ∧ ([] : Str) ≠ newContent :=
  ⟨rfl, rfl, rfl, fun h => h₁ h.symm, fun h => h₂ h.symm⟩

/-- C3 (witness). -/
theorem write_videos_json_stamps_and_truncates_witness :
    (write_videos_json (str "2024-01-01T00:00:00Z") ⟨none, []⟩).lastUpdated
        = some (str "2024-01-01T00:00:00Z")
    ∧ (write_videos_json (str "2024-01-01T00:00:00Z") ⟨none, []⟩).videos = []
    ∧ (write_videos_json_file_states (str "a") (str "b")).get? 1 = some []
    ∧ ([] : Str) ≠ str "a" ∧ ([] : Str) ≠ str "b" :=
  write_videos_json_stamps_and_truncates (str "2024-01-01T00:00:00Z") ⟨none, []⟩
    (str "a") (str "b") (by decide) (by decide)

/-! ## Claim C4 -/

/-- Folding the dict builder over items whose ids are fresh appends them. -/
theorem foldl_dict_upsert_nodup (C : List Video) :
    ∀ acc : List Video, ((acc ++ C).map Video.id).Nodup →
      C.foldl dict_upsert acc = acc ++ C := by
  induction C with
  | nil => intro acc _; simp
  | cons v rest ih =>
    intro acc h
    have h' : (((acc ++ [v]) ++ rest).map Video.id).Nodup := by
      rw [← List.append_cons]; exact h
    have hd : (acc.map Video.id).Disjoint (((v :: rest)).map Video.id) := by
      apply List.disjoint_of_nodup_append
      rw [← List.map_append]; exact h
    have hnotin : acc.any (fun w => w.id == v.id) = false := by
      rw [List.any_eq_false]
      intro w hw
      simp only [beq_iff_eq]
      intro hwv
      exact hd (hwv ▸ List.mem_map_of_mem Video.id hw)
        (List.mem_map_of_mem Video.id (List.mem_cons_self v rest))
    have hstep : dict_upsert acc v = acc ++ [v] := by
      unfold dict_upsert
      rw [hnotin]
      simp
    rw [List.foldl_cons, hstep, ih (acc ++ [v]) h', ← List.append_cons]

/-- With id-unique input the dict read back in insertion order is the input. -/
theorem dedup_by_id_nodup (C : List Video) (h : (C.map Video.id).Nodup) :
    dedup_by_id C = C := by
  have := foldl_dict_upsert_nodup C [] (by simpa using h)
  simpa [dedup_by_id] using this

/-- Upserting items already present verbatim in an id-unique dict is a no-op. -/
theorem foldl_dict_upsert_subset (C : List Video) (h : (C.map Video.id).Nodup) :
    ∀ S : List Video, (∀ s ∈ S, s ∈ C) → S.foldl dict_upsert C = C := by
  intro S
  induction S with
  | nil => intro _; rfl
  | cons s rest ih =>
    intro hs
    have hsC : s ∈ C := hs s (List.mem_cons_self s rest)
    have hany : C.any (fun w => w.id == s.id) = true := by
      rw [List.any_eq_true]
      exact ⟨s, hsC, by simp⟩
    have hmap : C.map (fun w => if w.id == s.id then s else w) = C := by
      have hcong : ∀ w ∈ C, (if w.id == s.id then s else w) = w := by
        intro w hw
        by_cases hww : w.id = s.id
        · have hws : w = s := List.inj_on_of_nodup_map h hw hsC hww
          simp [hws]
        · simp [hww]
      calc C.map (fun w => if w.id == s.id then s else w) = C.map id := by
            rw [List.map_congr_left (fun a ha => hcong a ha)]; rfl
        _ = C := List.map_id C
    have hup : dict_upsert C s = C := by
      unfold dict_upsert
      rw [hany]
      simpa using hmap
    rw [List.foldl_cons, hup]
    exact ih (fun x hx => hs x (List.mem_cons_of_mem s hx))

/-- C4 (counterexample): merging an incoming item whose id already exists but
whose non-key `downloaded` field differs does not return the catalog
unchanged — the incoming item overwrites the stored one (the dict build
keeps the last item per key), regressing the already-set `downloaded` flag. -/
theorem merge_idempotent_cex :
    merge_videos [⟨str "a", str "n", str "2020-01-01T00:00:00Z", true⟩]
        [⟨str "a", str "n", str "2020-01-01T00:00:00Z", false⟩]
      = [⟨str "a", str "n", str "2020-01-01T00:00:00Z", false⟩]
    ∧ [(⟨str "a", str "n", str "2020-01-01T00:00:00Z", false⟩ : Video)]
        ≠ [⟨str "a", str "n", str "2020-01-01T00:00:00Z", true⟩] :=
  ⟨by decide, by decide⟩

/-- C4 (amended): the merge is idempotent only for incoming items that are
verbatim copies of stored items.  For an id-unique catalog sorted ascending by
`publishedAt` and incoming items each equal (all fields) to a stored item,
the merge returns the catalog unchanged; when a non-key field differs the
incoming item replaces the stored one (last-write-wins), so `Merge(C,S) = C`
fails as the counterexample shows. -/
theorem merge_idempotent_on_identical_items (C S : List Video)
    (hnodup : (C.map Video.id).Nodup)
    (hsorted : List.Sorted lePub C)
    (hsub : ∀ s ∈ S, s ∈ C) :
    merge_videos C S = C := by
  unfold merge_videos
  have h1 : dedup_by_id (C ++ S) = C := by
    unfold dedup_by_id
    rw [List.foldl_append]
    have h0 : C.foldl dict_upsert [] = C := dedup_by_id_nodup C hnodup
    rw [h0]
    exact foldl_dict_upsert_subset C hnodup S hsub
  rw [h1]
  exact hsorted.insertionSort_eq

/-- C4 (witness): a one-item catalog merged with a verbatim copy of its item. -/
theorem merge_idempotent_witness :
    merge_videos [⟨str "a", str "n", str "2020-01-01T00:00:00Z", true⟩]
        [⟨str "a", str "n", str "2020-01-01T00:00:00Z", true⟩]
      = [⟨str "a", str "n", str "2020-01-01T00:00:00Z", true⟩] :=
  merge_idempotent_on_identical_items _ _ (by decide) (List.sorted_singleton _)
    (by intro s hs; simpa using hs)

/-- Canonical base file name derived in `download_videos`:
`{unix_ts}_{date_str}_{id}_{sanitized_title}`.  The conversion
`get_unix_timestamp_and_date_string` formats the local-clock interpretation of
`publishedAt`, so it enters as the parameter `ts_date` producing the two
formatted components. -/
def output_base (ts_date : Str → Str × Str) (vid : Video) : Str :=
  (ts_date vid.publishedAt).1 ++ str "_" ++ (ts_date vid.publishedAt).2
    ++ str "_" ++ vid.id ++ str "_" ++ sanitize_filename vid.name

/-- Accepted extensions per requested format in `check_existing_file`. -/
def ext_candidates (download_format : Str) : List Str :=
  if lower download_format = str "mp3" then [str ".mp3"]
  else [str ".mp4", str ".mkv", str ".webm"]

/-- Embeds `download.py::check_existing_file`: the first file of the folder
listing that starts with the base name and carries an accepted extension
yields that extension, lowercased with leading dots stripped. -/
def check_existing_file (base : Str) (folder : List Str) (download_format : Str) :
    Option Str :=
  match folder.find? (fun fname =>
      base.isPrefixOf fname
        && (ext_candidates download_format).contains (lower (splitext fname).2)) with
  | some fname => some ((lower (splitext fname).2).dropWhile (fun c => c == '.'))
  | none => none

/-- Outcome of one iteration of the `download_videos` loop for one item. -/
structure ProcessResult where
  vid : Video
  fetch_invoked : Bool
  saved : Bool
  completed_inc : Nat
deriving DecidableEq

/-- One iteration of the `download_videos` loop: skip items already marked
downloaded; otherwise mark and save immediately when a matching file already
exists; otherwise invoke the fetch collaborator (the `yt-dlp` subprocess,
entering as the success predicate `fetch_ok` on the video id), marking and
saving on success and only logging the failure otherwise. -/
def process_video (ts_date : Str → Str × Str) (fetch_ok : Str → Bool)
    (folder : List Str) (download_format : Str) (vid : Video) : ProcessResult :=
  if vid.downloaded then ⟨vid, false, false, 1⟩
  else
    match check_existing_file (output_base ts_date vid) folder download_format with
    | some _ => ⟨{ vid with downloaded := true }, false, true, 1⟩
    | none =>
      if fetch_ok vid.id then ⟨{ vid with downloaded := true }, true, true, 1⟩
      else ⟨vid, true, false, 0⟩

/-- Ascending `publishedAt` order on index-paired items: the loop sorts the
shared item records (`sorted(videos_data["videos"], ...)`) and mutates them in
place, so indices recover the stored order for the final catalog. -/
def lePubIdx (a b : Nat × Video) : Prop := pyStrLe a.2.publishedAt b.2.publishedAt = true

instance : DecidableRel lePubIdx :=
  fun a b => instDecidableEqBool (pyStrLe a.2.publishedAt b.2.publishedAt) true

/-- Final catalog contents: the stored sequence with the items marked during
the run updated in place (their shared records were mutated). -/
def apply_marks (marked : List Nat) (videos : List Video) : List Video :=
  videos.enum.map (fun iv =>
    if iv.1 ∈ marked then { iv.2 with downloaded := true } else iv.2)

/-- Aggregate outcome of a `download_videos` run. -/
structure DownloadRun where
  videos : List Video
  completed : Nat
  order : List Str
  failed : List Str
deriving DecidableEq

/-- State threaded through the `download_videos` loop: indices marked
downloaded this run, the `completed` counter, item ids in processing order,
and the ids whose download failed (the per-item failure logs). -/
structure DownloadState where
  marked : List Nat
  completed : Nat
  order : List Str
  failed : List Str

/-- Embeds `download.py::download_videos`: process the items sorted oldest
first, threading the loop state, and read the final catalog back in stored
order. -/
def download_videos (ts_date : Str → Str × Str) (fetch_ok : Str → Bool)
    (folder : List Str) (download_format : Str) (videos : List Video) : DownloadRun :=
  let sorted := List.insertionSort lePubIdx videos.enum
  let st := sorted.foldl (fun (st : DownloadState) iv =>
    let r := process_video ts_date fetch_ok folder download_format iv.2
    { marked := if r.vid.downloaded && !iv.2.downloaded then st.marked ++ [iv.1] else st.marked,
      completed := st.completed + r.completed_inc,
      order := st.order ++ [iv.2.id],
      failed := if r.completed_inc == 0 then st.failed ++ [iv.2.id] else st.failed })
    ⟨[], 0, [], []⟩
  ⟨apply_marks st.marked videos, st.completed, st.order, st.failed⟩

/-! ## Claim C6 -/

/-- Timestamp formatter used by concrete acquisition instances. -/
def ts_date_fixed : Str → Str × Str := fun _ => (str "1000", str "20200101")

/-- Older scenario item A. -/
def vidA : Video := ⟨str "idA", str "Video A", str "2020-01-01T00:00:00Z", false⟩

/-- Newer scenario item B. -/
def vidB : Video := ⟨str "idB", str "Video B", str "2020-02-01T00:00:00Z", false⟩

/-- C6: with A published before B, the fetch collaborator succeeding on A and
failing on B, the run processes A before B, marks A downloaded and leaves B
not downloaded, continues past the failure, counts 1 item completed, and
reports exactly one failure (item B): the per-item failure log, the final
printed tally giving the total and the completed count. -/
theorem acquisition_scenario :
    download_videos ts_date_fixed (fun id => id == str "idA") [] (str "mp3") [vidA, vidB]
      = ⟨[⟨str "idA", str "Video A", str "2020-01-01T00:00:00Z", true⟩, vidB],
         1, [str "idA", str "idB"], [str "idB"]⟩ := by
  decide

/-! ## Claim C7 -/

/-- Items collected by `fetch_new_videos` have ids absent from the catalog. -/
theorem collect_new_videos_fresh (videos : List Video) (snippets : List Snippet) :
    ∀ v ∈ collect_new_videos videos snippets, video_already_in_db videos v.id = false := by
  intro v hv
  rw [collect_new_videos, List.mem_filterMap] at hv
  obtain ⟨s, _, hs⟩ := hv
  by_cases hdb : video_already_in_db videos s.id = true
  · rw [if_pos hdb] at hs; cases hs
  · rw [if_neg hdb] at hs
    injection hs with hs'
    rw [← hs']
    exact Bool.eq_false_iff.mpr hdb

/-- Folding the dict builder over items with fresh ids keeps the catalog as an
untouched prefix. -/
theorem foldl_dict_upsert_fresh (C : List Video) :
    ∀ N rest : List Video,
      (∀ n ∈ N, video_already_in_db C n.id = false) →
      (∀ r ∈ rest, video_already_in_db C r.id = false) →
      ∃ rest₂, N.foldl dict_upsert (C ++ rest) = C ++ rest₂
        ∧ ∀ r ∈ rest₂, video_already_in_db C r.id = false := by
  intro N
  induction N with
  | nil => intro rest _ hr; exact ⟨rest, rfl, hr⟩
  | cons n N ih =>
    intro rest hN hr
    have hnfresh : video_already_in_db C n.id = false := hN n (List.mem_cons_self n N)
    have hanyC : C.any (fun v => v.id == n.id) = false := hnfresh
    have hCmap : C.map (fun w => if w.id == n.id then n else w) = C := by
      have hcong : ∀ w ∈ C, (if w.id == n.id then n else w) = w := by
        intro w hw
        exact if_neg (List.any_eq_false.mp hanyC w hw)
      calc C.map (fun w => if w.id == n.id then n else w) = C.map id :=
            List.map_congr_left (fun a ha => hcong a ha)
        _ = C := List.map_id C
    by_cases hcase : (C ++ rest).any (fun w => w.id == n.id) = true
    · have hstep : dict_upsert (C ++ rest) n
          = C ++ rest.map (fun w => if w.id == n.id then n else w) := by
        unfold dict_upsert
        rw [if_pos hcase, List.map_append, hCmap]
      rw [List.foldl_cons, hstep]
      refine ih (rest.map _) (fun m hm => hN m (List.mem_cons_of_mem n hm)) ?_
      intro r hrm
      rw [List.mem_map] at hrm
      obtain ⟨x, hx, hxr⟩ := hrm
      by_cases hb : (x.id == n.id) = true
      · rw [if_pos hb] at hxr; rw [← hxr]; exact hnfresh
      · rw [if_neg hb] at hxr; rw [← hxr]; exact hr x hx
    · have hstep : dict_upsert (C ++ rest) n = C ++ (rest ++ [n]) := by
        unfold dict_upsert
        rw [if_neg hcase, List.append_assoc]
      rw [List.foldl_cons, hstep]
      refine ih (rest ++ [n]) (fun m hm => hN m (List.mem_cons_of_mem n hm)) ?_
      intro r hrm
      rcases List.mem_append.mp hrm with h1 | h2
      · exact hr r h1
      · rw [List.mem_singleton.mp h2]; exact hnfresh

/-- Stored items survive the guarded fetch merge verbatim. -/
theorem mem_fetch_new_videos_merge (C : List Video) (ss : List Snippet)
    (hnodup : (C.map Video.id).Nodup) (c : Video) (hc : c ∈ C) :
    c ∈ fetch_new_videos_merge C (collect_new_videos C ss) := by
  unfold fetch_new_videos_merge
  by_cases hemp : (collect_new_videos C ss).isEmpty = true
  · rw [if_pos hemp]; exact hc
  · rw [if_neg hemp]
    unfold merge_videos
    obtain ⟨rest₂, heq, -⟩ :=
      foldl_dict_upsert_fresh C (collect_new_videos C ss) []
        (collect_new_videos_fresh C ss) (by intro r hr; cases hr)
    simp only [List.append_nil] at heq
    have hdd : dedup_by_id (C ++ collect_new_videos C ss) = C ++ rest₂ := by
      unfold dedup_by_id
      rw [List.foldl_append]
      have h0 : List.foldl dict_upsert [] C = C := dedup_by_id_nodup C hnodup
      rw [h0]
      exact heq
    rw [hdd]
    exact ((List.perm_insertionSort lePub _).mem_iff).mpr (List.mem_append_left _ hc)

/-- Marking indices never deletes an item and only raises `downloaded`. -/
theorem forall₂_apply_marks (marked : List Nat) :
    ∀ (vs : List Video) (k : Nat),
      List.Forall₂ (fun v w => w.id = v.id ∧ w.name = v.name
          ∧ w.publishedAt = v.publishedAt
          ∧ (v.downloaded = true → w.downloaded = true))
        vs ((List.enumFrom k vs).map (fun iv =>
              if iv.1 ∈ marked then { iv.2 with downloaded := true } else iv.2)) := by
  intro vs
  induction vs with
  | nil => intro k; exact List.Forall₂.nil
  | cons v t ih =>
    intro k
    have hstep : List.enumFrom k (v :: t) = (k, v) :: List.enumFrom (k + 1) t := rfl
    rw [hstep, List.map_cons]
    refine List.Forall₂.cons ?_ (ih (k + 1))
    dsimp only
    by_cases hm : k ∈ marked
    · simp [hm]
    · simp [hm]

/-- C7: catalog-mutating operations preserve stored items.  Merging newly
fetched items keeps every stored item verbatim (collected ids are fresh, so
the dict never overwrites a stored entry), and a download run keeps every
item's id, name and publishedAt while changing `downloaded` only monotonically
`false → true`. -/
theorem catalog_preservation (C : List Video) (ss : List Snippet)
    (ts_date : Str → Str × Str) (fetch_ok : Str → Bool) (folder : List Str)
    (download_format : Str) (c : Video)
    (hnodup : (C.map Video.id).Nodup) (hc : c ∈ C) :
    c ∈ fetch_new_videos_merge C (collect_new_videos C ss)
    ∧ List.Forall₂ (fun v w => w.id = v.id ∧ w.name = v.name
        ∧ w.publishedAt = v.publishedAt
        ∧ (v.downloaded = true → w.downloaded = true))
      C (download_videos ts_date fetch_ok folder download_format C).videos :=
  ⟨mem_fetch_new_videos_merge C ss hnodup c hc, forall₂_apply_marks _ C 0⟩

/-- C7 (witness): a one-item catalog, one fresh snippet, a download run that
succeeds on everything. -/
theorem catalog_preservation_witness :
    (⟨str "a", str "A", str "2020-01-01T00:00:00Z", true⟩ : Video)
        ∈ fetch_new_videos_merge [⟨str "a", str "A", str "2020-01-01T00:00:00Z", true⟩]
            (collect_new_videos [⟨str "a", str "A", str "2020-01-01T00:00:00Z", true⟩]
              [⟨str "b", str "B", str "2021-01-01T00:00:00Z"⟩])
    ∧ List.Forall₂ (fun v w => w.id = v.id ∧ w.name = v.name
        ∧ w.publishedAt = v.publishedAt
        ∧ (v.downloaded = true → w.downloaded = true))
      ([⟨str "a", str "A", str "2020-01-01T00:00:00Z", true⟩] : List Video)
      (download_videos ts_date_fixed (fun _ => true) [] (str "mp3")
        [⟨str "a", str "A", str "2020-01-01T00:00:00Z", true⟩]).videos :=
  catalog_preservation [⟨str "a", str "A", str "2020-01-01T00:00:00Z", true⟩]
    [⟨str "b", str "B", str "2021-01-01T00:00:00Z"⟩] ts_date_fixed (fun _ => true) []
    (str "mp3") ⟨str "a", str "A", str "2020-01-01T00:00:00Z", true⟩
    (by decide) (by decide)

/-! ## Claim C8 -/

/-- C8: an item not yet marked downloaded whose canonical base name already
matches a file in the target directory (accepted extension for the requested
format) is marked downloaded and the catalog saved immediately, without
invoking the fetch collaborator. -/
theorem existing_file_skips_fetch (ts_date : Str → Str × Str) (fetch_ok : Str → Bool)
    (folder : List Str) (download_format : Str) (vid : Video) (fname : Str)
    (h₁ : vid.downloaded = false) (h₂ : fname ∈ folder)
    (h₃ : (output_base ts_date vid).isPrefixOf fname = true)
    (h₄ : (ext_candidates download_format).contains (lower (splitext fname).2) = true) :
    (process_video ts_date fetch_ok folder download_format vid).vid.downloaded = true
    ∧ (process_video ts_date fetch_ok folder download_format vid).fetch_invoked = false
    ∧ (process_video ts_date fetch_ok folder download_format vid).saved = true := by
  obtain ⟨g, hg⟩ : ∃ g, folder.find? (fun f => (output_base ts_date vid).isPrefixOf f
      && (ext_candidates download_format).contains (lower (splitext f).2)) = some g := by
    refine Option.isSome_iff_exists.mp ?_
    rw [List.find?_isSome]
    exact ⟨fname, h₂, by rw [h₃, h₄]; rfl⟩
  have he : check_existing_file (output_base ts_date vid) folder download_format
      = some ((lower (splitext g).2).dropWhile (fun c => c == '.')) := by
    unfold check_existing_file
    rw [hg]
  simp only [process_video, h₁, he]
  exact ⟨rfl, rfl, rfl⟩

/-- C8 (witness): a pre-populated `1000_20200101_abc_T.mp3` and the matching
catalog item, with a fetch collaborator that would always fail. -/
theorem existing_file_skips_fetch_witness :
    (process_video ts_date_fixed (fun _ => false) [str "1000_20200101_abc_T.mp3"]
        (str "mp3") ⟨str "abc", str "T", str "2020-01-01T00:00:00Z", false⟩).vid.downloaded
        = true
    ∧ (process_video ts_date_fixed (fun _ => false) [str "1000_20200101_abc_T.mp3"]
        (str "mp3") ⟨str "abc", str "T", str "2020-01-01T00:00:00Z", false⟩).fetch_invoked
        = false
    ∧ (process_video ts_date_fixed (fun _ => false) [str "1000_20200101_abc_T.mp3"]
        (str "mp3") ⟨str "abc", str "T", str "2020-01-01T00:00:00Z", false⟩).saved = true :=
  existing_file_skips_fetch ts_date_fixed (fun _ => false) [str "1000_20200101_abc_T.mp3"]
    (str "mp3") ⟨str "abc", str "T", str "2020-01-01T00:00:00Z", false⟩
    (str "1000_20200101_abc_T.mp3") rfl (by decide) (by decide) (by decide)

/-! ## transcribe.py -/

/-- One transcript record as written by `transcribe_file`. -/
structure TranscriptionData where
  file_name : Str
  youtube_id : Str
  words : List WordEntry
deriving DecidableEq

/-- Embeds `transcribe.py::save_progress`: append the completed file name to
the progress ledger. -/
def save_progress (progress : List Str) (filename : Str) : List Str :=
  progress ++ [filename]

/-- Outcome of `transcribe_file` for one file: the ledger afterwards, whether
the transcription collaborator was invoked, whether the file was newly
processed, and the record written. -/
structure TranscribeResult where
  progress : List Str
  invoked : Bool
  processed : Bool
  record : Option TranscriptionData
deriving DecidableEq

/-- Embeds `transcribe.py::transcribe_file`: a file already in the ledger is
skipped before any transcription; otherwise the transcription collaborator is
invoked (entering as `collab`, `none` modelling a collaborator error); on
success the youtube id is read from raw segment index 2 of the `_`-split file
name (the `IndexError` for shorter names is caught as a per-file failure, like
a collaborator error), then the record is written and the ledger appended. -/
def transcribe_file (collab : Str → Option (List WordEntry))
    (progress : List Str) (mp3_filename : Str) : TranscribeResult :=
  if mp3_filename ∈ progress then ⟨progress, false, false, none⟩
  else
    match collab mp3_filename with
    | none => ⟨progress, true, false, none⟩
    | some ws =>
      match (splitOnChar '_' mp3_filename)[2]? with
      | none => ⟨progress, true, false, none⟩
      | some vid =>
        ⟨save_progress progress mp3_filename, true, true, some ⟨mp3_filename, vid, ws⟩⟩

/-- Embeds the loop of `transcribe_audio_files`: fold `transcribe_file` over
the files, threading the ledger and counting collaborator invocations. -/
def transcribe_run (collab : Str → Option (List WordEntry)) :
    List Str → List Str → List Str × Nat
  | [], progress => (progress, 0)
  | f :: fs, progress =>
    let r := transcribe_file collab progress f
    let rest := transcribe_run collab fs r.progress
    (rest.1, (if r.invoked then 1 else 0) + rest.2)

/-! ## Claim C5 -/

/-- A run only ever appends to the ledger. -/
theorem transcribe_run_ledger_mono (collab : Str → Option (List WordEntry)) :
    ∀ files progress : List Str, progress <+: (transcribe_run collab files progress).1 := by
  intro files
  induction files with
  | nil => intro p; exact List.prefix_refl p
  | cons f fs ih =>
    intro p
    have hstep : p <+: (transcribe_file collab p f).progress := by
      unfold transcribe_file
      by_cases hmem : f ∈ p
      · rw [if_pos hmem]
      · rw [if_neg hmem]
        cases hc : collab f with
        | none => exact List.prefix_refl p
        | some ws =>
          cases hg : (splitOnChar '_' f)[2]? with
          | none => exact List.prefix_refl p
          | some vid => exact List.prefix_append p [f]
    exact hstep.trans (ih (transcribe_file collab p f).progress)

/-- Ledger membership persists through a run. -/
theorem mem_transcribe_run (collab : Str → Option (List WordEntry))
    (files progress : List Str) (f : Str) (hf : f ∈ progress) :
    f ∈ (transcribe_run collab files progress).1 :=
  (transcribe_run_ledger_mono collab files progress).subset hf

/-- After a run in which every file transcribes successfully, every file of
the run is in the ledger. -/
theorem transcribe_run_complete (collab : Str → Option (List WordEntry)) :
    ∀ files progress : List Str,
      (∀ f ∈ files, (collab f).isSome = true
        ∧ ((splitOnChar '_' f)[2]?).isSome = true) →
      ∀ f ∈ files, f ∈ (transcribe_run collab files progress).1 := by
  intro files
  induction files with
  | nil => intro p _ f hf; cases hf
  | cons g gs ih =>
    intro p h f hf
    have hstep : g ∈ (transcribe_file collab p g).progress := by
      unfold transcribe_file
      by_cases hmem : g ∈ p
      · rw [if_pos hmem]; exact hmem
      · rw [if_neg hmem]
        obtain ⟨h1, h2⟩ := h g (List.mem_cons_self g gs)
        obtain ⟨ws, hws⟩ := Option.isSome_iff_exists.mp h1
        obtain ⟨vid, hvid⟩ := Option.isSome_iff_exists.mp h2
        simp [hws, hvid, save_progress]
    rcases List.mem_cons.mp hf with rfl | hfs
    · exact mem_transcribe_run collab gs _ f hstep
    · exact ih _ (fun x hx => h x (List.mem_cons_of_mem g hx)) f hfs

/-- A run over files all in the ledger performs zero collaborator calls and
leaves the ledger unchanged. -/
theorem transcribe_run_all_skipped (collab : Str → Option (List WordEntry)) :
    ∀ files progress : List Str, (∀ f ∈ files, f ∈ progress) →
      transcribe_run collab files progress = (progress, 0) := by
  intro files
  induction files with
  | nil => intro p _; rfl
  | cons g gs ih =>
    intro p h
    have hstep : transcribe_file collab p g = ⟨p, false, false, none⟩ := by
      unfold transcribe_file
      rw [if_pos (h g (List.mem_cons_self g gs))]
    simp only [transcribe_run, hstep]
    rw [ih p (fun x hx => h x (List.mem_cons_of_mem g hx))]
    rfl

/-- C5 (counterexample): transcription failures are retried, so the second of
two consecutive runs over an unchanged directory is not always free of
transcription calls.  With the collaborator failing on the single file, the
first run completes (leaving the file out of the ledger) and the second run
still invokes the collaborator once, not zero times. -/
theorem ledger_exactly_once_cex :
    (transcribe_run (fun _ => none) [str "a_b_c.mp3"]
        (transcribe_run (fun _ => none) [str "a_b_c.mp3"] []).1).2 = 1
    ∧ (1 : Nat) ≠ 0 :=
  ⟨by decide, by decide⟩

/-- C5 (amended): when every file of the directory transcribes successfully
(collaborator success on a `_`-splittable name), a second run over the
unchanged directory performs zero transcription calls and returns the ledger
unchanged; independently, a file already in the ledger is skipped before the
transcribe action, and a run only ever appends to the ledger. -/
theorem ledger_exactly_once (collab : Str → Option (List WordEntry))
    (files progress : List Str) (f : Str) (led : List Str)
    (h : ∀ g ∈ files, (collab g).isSome = true
      ∧ ((splitOnChar '_' g)[2]?).isSome = true) :
    transcribe_run collab files (transcribe_run collab files progress).1
        = ((transcribe_run collab files progress).1, 0)
    ∧ (f ∈ led → transcribe_file collab led f = ⟨led, false, false, none⟩)
    ∧ progress <+: (transcribe_run collab files progress).1 := by
  refine ⟨?_, ?_, transcribe_run_ledger_mono collab files progress⟩
  · exact transcribe_run_all_skipped collab files _
      (transcribe_run_complete collab files progress h)
  · intro hf
    unfold transcribe_file
    rw [if_pos hf]

/-- C5 (witness): one succeeding file, starting from an empty ledger. -/
theorem ledger_exactly_once_witness :
    transcribe_run (fun _ => some []) [str "a_b_c.mp3"]
        (transcribe_run (fun _ => some []) [str "a_b_c.mp3"] []).1
      = ((transcribe_run (fun _ => some []) [str "a_b_c.mp3"] []).1, 0)
    ∧ (str "x" ∈ [str "x"] →
        transcribe_file (fun _ => some []) [str "x"] (str "x")
          = ⟨[str "x"], false, false, none⟩)
    ∧ ([] : List Str) <+: (transcribe_run (fun _ => some []) [str "a_b_c.mp3"] []).1 :=
  ledger_exactly_once (fun _ => some []) [str "a_b_c.mp3"] [] (str "x") [str "x"]
    (by decide)

/-! ## Claim C10 -/

/-- C10: the transcription stage reads the youtube id from raw segment index 2
of the `_`-split file name, without discarding empty segments.  The record
written for a fresh file carries exactly that segment; for the
double-underscore name `1000_20200101__abc123_Title.mp3` the recorded id is
the empty string while the consumer-side parser extracts `abc123` from the
matching transcript name; and a name with fewer than three raw segments makes
the per-file action fail (collaborator invoked, nothing processed), so a run
over it leaves the ledger unchanged. -/
theorem transcription_youtube_id_raw_split (collab : Str → Option (List WordEntry))
    (done : List Str) (name : Str) (ws : List WordEntry) (y : Str)
    (hdone : name ∉ done) (hcollab : collab name = some ws)
    (hidx : (splitOnChar '_' name)[2]? = some y) :
    (transcribe_file collab done name).record = some ⟨name, y, ws⟩
    ∧ (transcribe_file (fun _ => some []) []
        (str "1000_20200101__abc123_Title.mp3")).record
        = some ⟨str "1000_20200101__abc123_Title.mp3", [], []⟩
    ∧ extract_video_info (str "1000_20200101__abc123_Title.json")
        = (some (str "abc123"), some (str "Title"))
    ∧ ([] : Str) ≠ str "abc123"
    ∧ transcribe_file (fun _ => some []) [] (str "ab.mp3") = ⟨[], true, false, none⟩
    ∧ transcribe_run (fun _ => some []) [str "ab.mp3"] [] = ([], 1) := by
  refine ⟨?_, by decide, by decide, by decide, by decide, by decide⟩
  unfold transcribe_file
  rw [if_neg hdone, hcollab, hidx]

/-- C10 (witness): a fresh well-formed name with a succeeding collaborator. -/
theorem transcription_youtube_id_raw_split_witness :
    (transcribe_file (fun _ => some []) [] (str "1000_20200101_abc_T.mp3")).record
        = some ⟨str "1000_20200101_abc_T.mp3", str "abc", []⟩
    ∧ (transcribe_file (fun _ => some []) []
        (str "1000_20200101__abc123_Title.mp3")).record
        = some ⟨str "1000_20200101__abc123_Title.mp3", [], []⟩
    ∧ extract_video_info (str "1000_20200101__abc123_Title.json")
        = (some (str "abc123"), some (str "Title"))
    ∧ ([] : Str) ≠ str "abc123"
    ∧ transcribe_file (fun _ => some []) [] (str "ab.mp3") = ⟨[], true, false, none⟩
    ∧ transcribe_run (fun _ => some []) [str "ab.mp3"] [] = ([], 1) :=
  transcription_youtube_id_raw_split (fun _ => some []) []
    (str "1000_20200101_abc_T.mp3") [] (str "abc")
    (by decide) rfl (by decide)
